import Mathlib

/-
Verification development for the Vue event core:
  src/core/vdom/helpers/update-listeners.js  (normalizeEvent, createFnInvoker, updateListeners)
  src/core/instance/events.js                (initEvents, createOnceHandler, $on/$once/$off/$emit)

The JavaScript is embedded shallowly:
  * JS function objects and arrays are the inductive `Fv`; reference identity is a
    numeric id carried by every object-like value, and `===` is `refEq` (id comparison).
  * JS objects used as maps (`on`, `oldOn`, `vm._events`) are association lists in
    insertion order, matching for-in enumeration order for string keys.
  * Mutable arrays held in `vm._events` live in a heap `Nat → List Fv` addressed by
    allocation counter, so aliasing (live array vs contents snapshot) is represented.
  * User callbacks are opaque: an environment maps a callback id to the bus operations
    it performs when invoked and to its outcome (a returned value or a thrown fault).
  * Ghost logs (`fired`, `dispatched`, `diags`) record observable behavior; they have
    no source counterpart and no source-visible effect.
-/

set_option maxHeartbeats 1000000

namespace VueEvents

/-- JS values a handler can return: `undefined`, `null`, or some other value
(abstracted by a number). -/
inductive RVal where
  | undef
  | null
  | val (n : Nat)
deriving DecidableEq, Repr

/-- JS function/array values flowing through the listener system.
Every object-like value carries a numeric id standing for its reference identity.
A function object has two optional properties used by this core: `fns` (the invoker
payload, also written by `old.fns = cur`) and `fnProp` (the `.fn` slot that `$once`
stores the original callback in). The constructor distinguishes the function body:
  * `userFn` — an opaque user callback (behavior supplied by the environment),
  * `invokerFn` — the closure returned by `createFnInvoker` (its body reads `fns`),
  * `vueOnceFn` — the `on` interceptor installed by `$once` (unsubscribes itself,
    then forwards to the original stored in `fnProp`),
  * `hostOnceFn` — the `onceHandler` returned by events.js `createOnceHandler`
    (calls the captured inner handler, then conditionally unsubscribes itself). -/
inductive Fv where
  | undef
  | null
  | arr (id : Nat) (elems : List Fv)
  | userFn (id : Nat) (fns : Option Fv) (fnProp : Option Fv)
  | invokerFn (id : Nat) (fns : Option Fv) (fnProp : Option Fv)
  | vueOnceFn (id : Nat) (event : String) (fns : Option Fv) (fnProp : Option Fv)
  | hostOnceFn (id : Nat) (event : String) (inner : Fv) (fns : Option Fv) (fnProp : Option Fv)
deriving Repr

/-- shared/util `isUndef`: true exactly for `undefined` and `null`. -/
def isUndefF : Fv → Bool
  | .undef => true
  | .null => true
  | _ => false

/-- Reference identity of an object-like value, `none` for `undefined`/`null`. -/
def idOf? : Fv → Option Nat
  | .undef => none
  | .null => none
  | .arr i _ => some i
  | .userFn i _ _ => some i
  | .invokerFn i _ _ => some i
  | .vueOnceFn i _ _ _ => some i
  | .hostOnceFn i _ _ _ _ => some i

/-- Reference identity as a number (0 for the two primitive values). -/
def fvId (v : Fv) : Nat := (idOf? v).getD 0

/-- JS strict equality `===` on the values this core compares: primitives compare by
kind, objects by reference id. -/
def refEq (a b : Fv) : Bool :=
  match a, b with
  | .undef, .undef => true
  | .null, .null => true
  | a, b =>
    match idOf? a, idOf? b with
    | some i, some j => i == j
    | _, _ => false

/-- Reading `v.fns` (`undefined` when the property is absent or the value is not a
function object). -/
def fnsOf : Fv → Fv
  | .userFn _ (some f) _ => f
  | .invokerFn _ (some f) _ => f
  | .vueOnceFn _ _ (some f) _ => f
  | .hostOnceFn _ _ _ (some f) _ => f
  | _ => (.undef)

/-- Reading `v.fn` (`undefined` when absent). -/
def fnPropOf : Fv → Option Fv
  | .userFn _ _ p => p
  | .invokerFn _ _ p => p
  | .vueOnceFn _ _ _ p => p
  | .hostOnceFn _ _ _ _ p => p
  | _ => none

/-- The assignment `old.fns = cur`. Setting a property on an array object is
representable but inert for this core (no body reads `fns` off an array), so the
array case is the identity; the primitive cases cannot occur (the caller guards
`old` with `isUndef`). -/
def setFns : Fv → Fv → Fv
  | .userFn i _ p, cur => .userFn i (some cur) p
  | .invokerFn i _ p, cur => .invokerFn i (some cur) p
  | .vueOnceFn i e _ p, cur => .vueOnceFn i e (some cur) p
  | .hostOnceFn i e inn _ p, cur => .hostOnceFn i e inn (some cur) p
  | v, _ => v

/-- Normalized event descriptor (update-listeners.js keeps an optional weex-only
`params` field; the web build never sets it, so it is omitted). -/
structure EventDesc where
  name : String
  once : Bool
  capture : Bool
  passive : Bool
deriving DecidableEq, Repr

/-- JS `name.charAt(0)` as an optional character (charAt of an empty string is the
empty string, which compares unequal to every marker). -/
def charAt0 (s : String) : Option Char := s.data.head?

/-- JS `name.slice(1)`. -/
def strTail (s : String) : String := String.mk s.data.tail

/-- update-listeners.js `normalizeEvent` (the `cached` wrapper memoizes a pure
function and is therefore transparent): strip a passive marker, then a once marker,
then a capture marker, each from the front of the remaining string. -/
def normalizeEvent (name : String) : EventDesc :=
  let passive := charAt0 name == some '&'
  let name1 := if passive then strTail name else name
  let once := charAt0 name1 == some '~'
  let name2 := if once then strTail name1 else name1
  let capture := charAt0 name2 == some '!'
  let name3 := if capture then strTail name2 else name2
  ⟨name3, once, capture, passive⟩

/-- Test-and-strip of one leading marker character, written the way the spec
describes the parsing stages. -/
def stripFront (c : Char) (s : String) : Bool × String :=
  if charAt0 s == some c then (true, strTail s) else (false, s)

/-- The normalizer as the spec words it: passive first, then once, then capture,
each from the front of the remaining string; the final remainder is the name. -/
def normalizeEventSpec (s : String) : EventDesc :=
  let p := stripFront '&' s
  let o := stripFront '~' p.2
  let c := stripFront '!' o.2
  ⟨c.2, o.1, c.1, p.1⟩

/-- A raw token carrying no modifier marker at its front. -/
def noMarker (s : String) : Bool :=
  !(charAt0 s == some '&') && !(charAt0 s == some '~') && !(charAt0 s == some '!')

/-! ## Listener reconciler (update-listeners.js) -/

/-- One call made against the host registry during a reconciliation pass, plus the
dev-mode diagnostic. `add` receives `(name, handler, capture, passive, params)`;
`params` is weex-only and always `none` in the web build embedded here. -/
inductive HostCall where
  | add (name : String) (handler : Fv) (capture : Bool) (passive : Bool)
      (params : Option (List Nat))
  | remove (name : String) (handler : Fv) (capture : Bool)
  | warn (msg : String)
deriving Repr

/-- JS property read `obj[name]` on a declaration map: `undefined` when absent. -/
def jsGet (l : List (String × Fv)) (k : String) : Fv :=
  match l.find? (fun p => p.1 == k) with
  | some p => p.2
  | none => (.undef)

/-- JS property write `obj[name] = v` (updates the existing key in place, which is
the only case reached here since the reconciler writes only keys it is iterating). -/
def jsSet (l : List (String × Fv)) (k : String) (v : Fv) : List (String × Fv) :=
  match l with
  | [] => [(k, v)]
  | (k1, v1) :: rest => if k1 == k then (k, v) :: rest else (k1, v1) :: jsSet rest k v

/-- `String(v)` for the values that reach the invalid-handler warning. -/
def fvString : Fv → String
  | .undef => "undefined"
  | .null => "null"
  | _ => "function"

/-- update-listeners.js `createFnInvoker`: a fresh closure whose `fns` property holds
the callback-or-array payload; the id is drawn from the model's allocation counter. -/
def createFnInvoker (i : Nat) (fns : Fv) : Fv := Fv.invokerFn i (some fns) none

/-- State threaded through one `updateListeners` pass: the (mutated-in-place) new
map, the calls issued so far, and the id supply for freshly created closures. -/
structure ULSt where
  onMap : List (String × Fv)
  calls : List HostCall
  fresh : Nat
deriving Repr

/-- events.js `createOnceHandler(event, fn)` adapted to the reconciler's
`createOnce` slot: returns a fresh `onceHandler` closure capturing the event name
and the inner handler. The source function takes two parameters, so the capture
flag the reconciler passes is accepted and ignored; the id supply is threaded. -/
def createOnceHandler (event : String) (f : Fv) (_capture : Bool) (fresh : Nat) :
    Fv × Nat :=
  (Fv.hostOnceFn fresh event f none none, fresh + 1)

/-- The body of the first `for (name in on)` loop of `updateListeners`, for one key.
`cur` is read off the entry being iterated: the loop mutates only the key it is
visiting, so the stored value still equals the original one when read. The weex-only
`isPlainObject` branch is compiled out in the web build and omitted. The warning is
emitted unconditionally (the model is the development build, where
`process.env.NODE_ENV !== 'production'`). -/
def ulStep1 (oldOn : List (String × Fv))
    (createOnce : String → Fv → Bool → Nat → Fv × Nat)
    (st : ULSt) (entry : String × Fv) : ULSt :=
  let name := entry.1
  let cur := entry.2
  let old := jsGet oldOn name
  let event := normalizeEvent name
  if isUndefF cur then
    { st with
      calls := st.calls ++
        [HostCall.warn ("Invalid handler for event \"" ++ event.name ++ "\": got "
          ++ fvString cur)] }
  else if isUndefF old then
    let p1 :=
      if isUndefF (fnsOf cur) then (createFnInvoker st.fresh cur, st.fresh + 1)
      else (cur, st.fresh)
    let p2 :=
      if event.once then createOnce event.name p1.1 event.capture p1.2 else p1
    { onMap := jsSet st.onMap name p2.1,
      calls := st.calls ++
        [HostCall.add event.name p2.1 event.capture event.passive none],
      fresh := p2.2 }
  else if refEq cur old then st
  else
    { st with onMap := jsSet st.onMap name (setFns old cur) }

/-- The body of the second `for (name in oldOn)` loop, for one key: a remove call
when the (post-first-loop) new map holds nothing usable under this name. -/
def ulStep2 (onAfter : List (String × Fv)) (calls : List HostCall)
    (entry : String × Fv) : List HostCall :=
  if isUndefF (jsGet onAfter entry.1) then
    let event := normalizeEvent entry.1
    calls ++ [HostCall.remove event.name entry.2 event.capture]
  else calls

/-- update-listeners.js `updateListeners`: process every new-map entry, then emit
removals for stale old-map entries. `add`/`remove`/`warn` are recorded as host
calls in issue order; `createOnce` is the injected once-wrapper factory. -/
def updateListeners (newOn oldOn : List (String × Fv))
    (createOnce : String → Fv → Bool → Nat → Fv × Nat) (fresh : Nat) : ULSt :=
  let st1 := newOn.foldl (ulStep1 oldOn createOnce) ⟨newOn, [], fresh⟩
  { st1 with calls := oldOn.foldl (ulStep2 st1.onMap) st1.calls }

/-! ## Instance event bus (events.js) -/

/-- Diagnostics emitted by the bus: the dev-only lowercase tip in `$emit`, and the
fault report produced by the error-isolation boundary, tagged with the owning
instance and a human-readable info string. -/
inductive Diag where
  | tip (event : String)
  | handlerError (vm : Nat) (info : String) (err : Nat)
deriving DecidableEq, Repr

/-- The per-instance bus state.
`events` models `vm._events` (a null-prototype object): a key can be absent, hold
`null` (after a name-level `$off`), or hold a reference into `heap`, the store of
live callback arrays. `nextRef` is the array allocator, `fresh` the id supply for
wrapper closures created by `$once`. `diags`, `fired` (user callbacks actually
executed, with their arguments) and `dispatched` (entries the `$emit` loop invoked)
are ghost logs with no source-visible effect. -/
structure Bus where
  heap : Nat → List Fv
  nextRef : Nat
  events : List (String × Option Nat)
  hasHookEvent : Bool
  fresh : Nat
  vmId : Nat
  diags : List Diag
  fired : List (Nat × List Nat)
  dispatched : List (Fv × List Nat)

/-- events.js `initEvents`: a fresh `_events` mapping and a cleared hook flag.
The allocator fields are model bookkeeping (ids for closures created later). -/
def initEvents (vmId : Nat) : Bus :=
  { heap := fun _ => [], nextRef := 0, events := [], hasHookEvent := false,
    fresh := 100, vmId := vmId, diags := [], fired := [], dispatched := [] }

/-- Lookup in `vm._events`: `none` when the key was never created, `some none` when
it holds `null`, `some (some r)` when it holds the array at heap slot `r`. -/
def evGet (es : List (String × Option Nat)) (k : String) : Option (Option Nat) :=
  match es.find? (fun p => p.1 == k) with
  | some p => some p.2
  | none => none

/-- Write a key of `vm._events` (update in place, or create it). -/
def evSet (es : List (String × Option Nat)) (k : String) (v : Option Nat) :
    List (String × Option Nat) :=
  match es with
  | [] => [(k, v)]
  | (k1, v1) :: rest => if k1 == k then (k, v) :: rest else (k1, v1) :: evSet rest k v

/-- Heap update at one slot. -/
def heapUpdate (h : Nat → List Fv) (r : Nat) (l : List Fv) : Nat → List Fv :=
  fun x => if x = r then l else h x

/-- The `hookRE.test(event)` check, `/^hook:/`, as a character-list prefix test
(the `String` primitives do not reduce well inside proofs). -/
def hookTest (event : String) : Bool :=
  List.isPrefixOf ("hook:".data) (event.data)

/-- `$on` for a single event name: `(vm._events[event] || (vm._events[event] =
[])).push(fn)` — push onto the live array when the key holds one (a present empty
array included), otherwise allocate a fresh array; then mark the hook fast-path
flag when the name matches `/^hook:/`. The array-of-names overload recurses onto
this per name and is not separately modelled. -/
def busOn (b : Bus) (event : String) (cb : Fv) : Bus :=
  let b1 :=
    match evGet b.events event with
    | some (some r) => { b with heap := heapUpdate b.heap r (b.heap r ++ [cb]) }
    | _ =>
      { b with
        heap := heapUpdate b.heap b.nextRef ([cb]),
        events := evSet b.events event (some b.nextRef),
        nextRef := b.nextRef + 1 }
  if hookTest event then { b1 with hasHookEvent := true } else b1

/-- `$once`: build the `on` interceptor (carrying the original callback in its `fn`
property) and register it through `$on`. -/
def busOnce (b : Bus) (event : String) (cb : Fv) : Bus :=
  let w := Fv.vueOnceFn b.fresh event none (some cb)
  busOn { b with fresh := b.fresh + 1 } event w

/-- `$off()` with no arguments: replace `vm._events` with a fresh empty mapping
(previously reachable arrays stay alive for any in-flight emission). -/
def busOffAll (b : Bus) : Bus :=
  { b with events := [] }

/-- `$off(event)` with no callback: no-op when the key is absent or already `null`
(`if (!cbs) return vm`), else set the key to `null`. -/
def busOffEvent (b : Bus) (event : String) : Bus :=
  match evGet b.events event with
  | some (some _) => { b with events := evSet b.events event none }
  | _ => b

/-- The `$off` match test on one stored entry: `cb === fn || cb.fn === fn`. -/
def matchCb (cb fn : Fv) : Bool :=
  refEq cb fn ||
    (match fnPropOf cb with
     | some orig => refEq orig fn
     | none => false)

/-- Remove the first matching entry of a list, keeping the rest in order. -/
def removeFirstMatch (fn : Fv) : List Fv → List Fv
  | [] => []
  | c :: rest => if matchCb c fn then rest else c :: removeFirstMatch fn rest

/-- The `while (i--) ... splice(i, 1); break` loop of `$off(event, fn)`: scan from
the end toward the start and splice out the first match encountered, i.e. remove
the last matching element of the array. -/
def offRemove (l : List Fv) (fn : Fv) : List Fv :=
  (removeFirstMatch fn l.reverse).reverse

/-- `$off(event, fn)` with both arguments: no-op when the key is absent or `null`,
else splice the reverse-scan match (if any) out of the live array. -/
def busOffCb (b : Bus) (event : String) (fn : Fv) : Bus :=
  match evGet b.events event with
  | some (some r) => { b with heap := heapUpdate b.heap r (offRemove (b.heap r) fn) }
  | _ => b

/-- A bus operation a user callback may perform while it runs. Emits are excluded:
the claims under verification concern subscribe/unsubscribe during emission. -/
inductive BusOp where
  | subOp (event : String) (cb : Fv)
  | subOnceOp (event : String) (cb : Fv)
  | offAllOp
  | offEventOp (event : String)
  | offCbOp (event : String) (cb : Fv)

/-- Run one bus operation. -/
def applyOp (b : Bus) : BusOp → Bus
  | .subOp e cb => busOn b e cb
  | .subOnceOp e cb => busOnce b e cb
  | .offAllOp => busOffAll b
  | .offEventOp e => busOffEvent b e
  | .offCbOp e cb => busOffCb b e cb

/-- Behavior of one opaque user callback: the bus operations it performs, then its
outcome — a returned value, or `Except.error` for a thrown fault. -/
structure CbSpec where
  script : List BusOp
  outcome : Except Nat RVal

/-- Assignment of behaviors to user-callback ids. -/
def Env := Nat → CbSpec

/-- The fixed info string used by the invoker's per-callback boundary. -/
def vOnInfo : String := "v-on handler"

/-- The info string `$emit` passes to the boundary. -/
def emitInfo (event : String) : String :=
  "event handler for \"" ++ event ++ "\""

/-- Modelled from the spec: the catch-and-report half of `invokeWithErrorHandling`
(core/util, not under src/). A fault raised by the wrapped call is recovered at
single-callback granularity, reported on the diagnostic channel tagged with the
owning instance and the info string, and never rethrown; a fault makes the
boundary's result `undefined`. -/
def guardCall (info : String) (p : Bus × Except Nat RVal) : Bus × RVal :=
  match p with
  | (b, .ok v) => (b, v)
  | (b, .error e) =>
    ({ b with diags := b.diags ++ [Diag.handlerError b.vmId info e] }, .undef)

/-- Calling a function value with argument list `args` (fuel bounds the structural
descent through wrapper chains; every real call chain is finitely nested, and all
theorems either hold for every fuel or instantiate it above the concrete depth).
  * a `userFn` records itself in `fired`, runs its script, and yields its outcome;
  * an `invokerFn` reads its own `fns`: an array payload is sliced and every element
    is run through the shared error boundary (`v-on handler`), returning `undefined`
    — slicing is the identity here because payload arrays are immutable values in
    the model (handler scripts mutate only the bus heap); a single payload is run
    through the boundary and its result returned; a missing payload makes the single
    branch call `undefined`, whose type fault the boundary swallows;
  * a `vueOnceFn` first does `vm.$off(event, on)` with itself, then forwards to the
    original callback in its `fn` property (no internal boundary: a throw escapes);
  * a `hostOnceFn` calls the captured inner handler and, when the result is not
    `null`, does `_target.$off(event, onceHandler)` with itself; it returns
    `undefined` (a throw from the inner handler escapes and skips the `$off`);
  * calling `undefined`, `null` or an array throws a type fault. -/
def callFvF (env : Env) : Nat → Bus → Fv → List Nat → Bus × Except Nat RVal
  | 0, b, _, _ => (b, .error 0)
  | fuel + 1, b, cb, args =>
    match cb with
    | .undef => (b, .error 0)
    | .null => (b, .error 0)
    | .arr _ _ => (b, .error 0)
    | .userFn i _ _ =>
      let spec := env i
      let b1 := { b with fired := b.fired ++ [(i, args)] }
      (spec.script.foldl applyOp b1, spec.outcome)
    | .invokerFn _ fns _ =>
      match fns with
      | some (.arr _ elems) =>
        (elems.foldl
          (fun bb c => (guardCall vOnInfo (callFvF env fuel bb c args)).1) b,
         .ok .undef)
      | some f =>
        let p := guardCall vOnInfo (callFvF env fuel b f args)
        (p.1, .ok p.2)
      | none =>
        let p := guardCall vOnInfo (callFvF env fuel b .undef args)
        (p.1, .ok p.2)
    | .vueOnceFn i e fns fp =>
      let self := Fv.vueOnceFn i e fns fp
      let b1 := busOffCb b e self
      match fp with
      | some orig =>
        match callFvF env fuel b1 orig args with
        | (b2, .error ex) => (b2, .error ex)
        | (b2, .ok _) => (b2, .ok .undef)
      | none => (b1, .error 0)
    | .hostOnceFn i e inner fns fp =>
      let self := Fv.hostOnceFn i e inner fns fp
      match callFvF env fuel b inner args with
      | (b1, .error ex) => (b1, .error ex)
      | (b1, .ok res) =>
        if res = RVal.null then (b1, .ok .undef)
        else (busOffCb b1 e self, .ok .undef)

/-- Modelled from the spec: `invokeWithErrorHandling` (core/util, outside the
embedded sources) — invoke one callback and recover any fault. Its call sites in
`$emit` and in the invoker body both go through this shape; inside `callFvF` the
same `guardCall` boundary is applied to the recursive call directly. -/
def invokeWithErrorHandling (env : Env) (fuel : Nat) (b : Bus) (cb : Fv)
    (args : List Nat) (info : String) : Bus × RVal :=
  guardCall info (callFvF env fuel b cb args)

/-- Truthiness of `vm._events[k]`: `undefined`/`null` are falsy, a live array
(empty included) is truthy. -/
def evTruthy (es : List (String × Option Nat)) (k : String) : Bool :=
  match evGet es k with
  | some (some _) => true
  | _ => false

/-- `event.toLowerCase()` on the character list (the `String` primitive does not
reduce well inside proofs; ASCII case is what the diagnostic is about). -/
def lowerName (s : String) : String :=
  String.mk (s.data.map
    (fun c => if 'A' ≤ c ∧ c ≤ 'Z' then Char.ofNat (c.toNat + 32) else c))

/-- The dev-only lowercase tip at the top of `$emit`. -/
def devTip (b : Bus) (event : String) : Bus :=
  if lowerName event != event && evTruthy b.events (lowerName event) then
    { b with diags := b.diags ++ [Diag.tip (lowerName event)] }
  else b

/-- `$emit(event, ...args)`: after the dev tip, look up the callback array; absent
or `null` means no-op. `cbs = cbs.length > 1 ? toArray(cbs) : cbs` snapshots the
live array before iterating whenever it has more than one entry; with at most one
entry the single element is read before any callback has run, so iterating the
looked-up list value is observationally identical in every case — the fold below
therefore iterates the snapshot while callbacks mutate the live heap. Each entry
is dispatched (recorded in the ghost `dispatched` log) and run through the shared
boundary with info `event handler for "<event>"`. -/
def busEmit (env : Env) (fuel : Nat) (b : Bus) (event : String)
    (args : List Nat) : Bus :=
  let b0 := devTip b event
  match evGet b0.events event with
  | some (some r) =>
    let snapshot := b0.heap r
    let info := emitInfo event
    snapshot.foldl
      (fun bb c =>
        let bb1 := { bb with dispatched := bb.dispatched ++ [(c, args)] }
        (invokeWithErrorHandling env fuel bb1 c args info).1)
      b0
  | _ => b0

/-- The callbacks currently subscribed for a name, in subscription order. -/
def subscribedList (b : Bus) (event : String) : List Fv :=
  match evGet b.events event with
  | some (some r) => b.heap r
  | _ => []

/-- Iterated emission of one event with fixed arguments. -/
def emitIter (env : Env) (fuel : Nat) (event : String) (args : List Nat)
    (b : Bus) : Nat → Bus
  | 0 => b
  | n + 1 => busEmit env fuel (emitIter env fuel event args b n) event args

/-! ## Concrete scenarios used by the claims -/

/-- Shorthand for an opaque user callback with no properties. -/
def uf (i : Nat) : Fv := Fv.userFn i none none

/-- Every callback is pure and returns `undefined` (the default for a JS function
with no return statement). -/
def envPure : Env := fun _ => ⟨[], .ok RVal.undef⟩

/-- Every callback is pure and returns `null`. -/
def envNull : Env := fun _ => ⟨[], .ok RVal.null⟩

/-- Callback 1 throws fault 9; every other callback is pure and returns
`undefined`. -/
def envThrow1 : Env := fun i => if i == 1 then ⟨[], .error 9⟩ else ⟨[], .ok RVal.undef⟩

/-- The `$once` interceptor the model creates first on a fresh instance (id 100),
wrapping callback 1 for event `evt`. -/
def onceW : Fv := Fv.vueOnceFn 100 "evt" none (some (uf 1))

/-- `$once("evt", f1)` on a fresh instance. -/
def onceBusSolo : Bus := busOnce (initEvents 0) "evt" (uf 1)

/-- `$once("evt", f1)` followed by a direct `$on("evt", f1)`. -/
def onceBusBoth : Bus := busOn onceBusSolo "evt" (uf 1)

/-- Modelled from the spec: the `$once` interceptor as claim C6 describes it — upon
firing it first unsubscribes by matching the original callback stored on its `fn`
property (not the wrapper itself), then forwards to that original. Present only to
be compared against the code's wrapper semantics. -/
def specVueOnceCall (env : Env) (fuel : Nat) (b : Bus) (w : Fv)
    (args : List Nat) : Bus :=
  match w with
  | .vueOnceFn _ event _ (some orig) =>
    (callFvF env fuel (busOffCb b event orig) orig args).1
  | _ => b

/-- The success predicate claim C3 states for the once adapter: the wrapped
handler's return value is defined and non-null. The source tests `res !== null`
instead. -/
def specCountsAsFired (v : RVal) : Bool :=
  !(v == RVal.null) && !(v == RVal.undef)

/-- The once-adapter produced for `~click` over an invoker around callback 1. -/
def hostW : Fv := Fv.hostOnceFn 11 "click" (createFnInvoker 10 (uf 1)) none none

/-- A bus holding exactly the once-adapter under `click`. -/
def hostBus : Bus := busOn (initEvents 0) "click" hostW

/-- Two plain callbacks under `evt` on instance 7 (callback 1 will throw). -/
def throwBus : Bus := busOn (busOn (initEvents 7) "evt" (uf 1)) "evt" (uf 2)

/-- The bus state after the `$once` registration of `onceBusSolo` has fired once:
the wrapper has removed itself and callback 1 fired once with the arguments. -/
def onceAfter : Bus :=
  { onceBusSolo with
    heap := heapUpdate onceBusSolo.heap 0 ([]),
    fired := [(1, [5])],
    dispatched := [(onceW, [5])] }

/-- The bus state after the host once-adapter of `hostBus` has fired once with a
non-null inner result: the adapter has removed itself. -/
def hostAfterUndef : Bus :=
  { hostBus with
    heap := heapUpdate hostBus.heap 0 ([]),
    fired := [(1, [5])],
    dispatched := [(hostW, [5])] }

end VueEvents

namespace VueEvents

/-! ## Helper lemmas -/

/-- A fold preserves any predicate its step preserves for the elements folded. -/
theorem foldl_preserves {α β : Type} (f : α → β → α) (P : α → Prop) :
    ∀ (l : List β) (a : α), (∀ x y, y ∈ l → P x → P (f x y)) → P a →
      P (l.foldl f a) := by
  intro l
  induction l with
  | nil => intro a _ h; simpa using h
  | cons y ys ih =>
    intro a hstep h
    exact ih (f a y) (fun x z hz => hstep x z (List.mem_cons_of_mem y hz))
      (hstep a y (List.mem_cons_self y ys) h)

/-- `jsSet` at one key leaves lookups of a different key unchanged. -/
theorem find?_jsSet_ne (k name : String) (v : Fv) (h : (k == name) = false) :
    ∀ l : List (String × Fv),
      (jsSet l k v).find? (fun p => p.1 == name) = l.find? (fun p => p.1 == name) := by
  intro l
  induction l with
  | nil => simp [jsSet, List.find?, h]
  | cons p rest ih =>
    obtain ⟨k1, v1⟩ := p
    by_cases hk : (k1 == k) = true
    · have : k1 = k := by simpa using hk
      subst this
      simp [jsSet, hk, List.find?, h, ih]
    · simp only [jsSet, hk, Bool.false_eq_true, if_false, reduceIte]
      simp [List.find?, ih]

/-- `evSet` writes its key: an immediate lookup returns the written value. -/
theorem evGet_evSet_self (k : String) (v : Option Nat) :
    ∀ es, evGet (evSet es k v) k = some v := by
  intro es
  induction es with
  | nil => simp [evSet, evGet, List.find?]
  | cons p rest ih =>
    obtain ⟨k1, v1⟩ := p
    by_cases hk : (k1 == k) = true
    · simp [evSet, hk, evGet, List.find?]
    · simp only [evSet, hk, Bool.false_eq_true, if_false, reduceIte]
      simpa [evGet, List.find?, hk] using ih

/-- The dev tip touches only the diagnostics log. -/
theorem devTip_events (b : Bus) (e : String) : (devTip b e).events = b.events := by
  unfold devTip; split <;> rfl

theorem devTip_heap (b : Bus) (e : String) : (devTip b e).heap = b.heap := by
  unfold devTip; split <;> rfl

theorem devTip_fired (b : Bus) (e : String) : (devTip b e).fired = b.fired := by
  unfold devTip; split <;> rfl

theorem devTip_dispatched (b : Bus) (e : String) :
    (devTip b e).dispatched = b.dispatched := by
  unfold devTip; split <;> rfl

/-- `$on` does not touch the ghost dispatch log. -/
theorem busOn_dispatched (b : Bus) (e : String) (cb : Fv) :
    (busOn b e cb).dispatched = b.dispatched := by
  unfold busOn
  split <;> split <;> rfl

/-- `$on` does not touch the fired log. -/
theorem busOn_fired (b : Bus) (e : String) (cb : Fv) :
    (busOn b e cb).fired = b.fired := by
  unfold busOn
  split <;> split <;> rfl

theorem busOnce_dispatched (b : Bus) (e : String) (cb : Fv) :
    (busOnce b e cb).dispatched = b.dispatched := by
  unfold busOnce; rw [busOn_dispatched]

theorem busOnce_fired (b : Bus) (e : String) (cb : Fv) :
    (busOnce b e cb).fired = b.fired := by
  unfold busOnce; rw [busOn_fired]

theorem busOffAll_dispatched (b : Bus) : (busOffAll b).dispatched = b.dispatched := rfl

theorem busOffAll_fired (b : Bus) : (busOffAll b).fired = b.fired := rfl

theorem busOffEvent_dispatched (b : Bus) (e : String) :
    (busOffEvent b e).dispatched = b.dispatched := by
  unfold busOffEvent; split <;> rfl

theorem busOffEvent_fired (b : Bus) (e : String) :
    (busOffEvent b e).fired = b.fired := by
  unfold busOffEvent; split <;> rfl

theorem busOffCb_dispatched (b : Bus) (e : String) (fn : Fv) :
    (busOffCb b e fn).dispatched = b.dispatched := by
  unfold busOffCb; split <;> rfl

theorem busOffCb_fired (b : Bus) (e : String) (fn : Fv) :
    (busOffCb b e fn).fired = b.fired := by
  unfold busOffCb; split <;> rfl

/-- No bus operation a callback script can perform touches the dispatch log. -/
theorem applyOp_dispatched (b : Bus) (op : BusOp) :
    (applyOp b op).dispatched = b.dispatched := by
  cases op with
  | subOp e cb => exact busOn_dispatched b e cb
  | subOnceOp e cb => exact busOnce_dispatched b e cb
  | offAllOp => rfl
  | offEventOp e => exact busOffEvent_dispatched b e
  | offCbOp e cb => exact busOffCb_dispatched b e cb

/-- No bus operation a callback script can perform touches the fired log. -/
theorem applyOp_fired (b : Bus) (op : BusOp) :
    (applyOp b op).fired = b.fired := by
  cases op with
  | subOp e cb => exact busOn_fired b e cb
  | subOnceOp e cb => exact busOnce_fired b e cb
  | offAllOp => rfl
  | offEventOp e => exact busOffEvent_fired b e
  | offCbOp e cb => exact busOffCb_fired b e cb

/-- Whole scripts preserve the dispatch log. -/
theorem script_dispatched (ops : List BusOp) :
    ∀ b : Bus, (ops.foldl applyOp b).dispatched = b.dispatched := by
  induction ops with
  | nil => intro b; rfl
  | cons op rest ih => intro b; rw [List.foldl_cons, ih, applyOp_dispatched]

/-- Whole scripts preserve the fired log. -/
theorem script_fired (ops : List BusOp) :
    ∀ b : Bus, (ops.foldl applyOp b).fired = b.fired := by
  induction ops with
  | nil => intro b; rfl
  | cons op rest ih => intro b; rw [List.foldl_cons, ih, applyOp_fired]

/-- The error boundary touches only the diagnostics log. -/
theorem guardCall_dispatched (info : String) (p : Bus × Except Nat RVal) :
    (guardCall info p).1.dispatched = p.1.dispatched := by
  unfold guardCall; split <;> rfl

theorem guardCall_fired (info : String) (p : Bus × Except Nat RVal) :
    (guardCall info p).1.fired = p.1.fired := by
  unfold guardCall; split <;> rfl

/-- Running any callback never touches the ghost dispatch log: only the `$emit`
loop itself records dispatches, so in-flight mutation by handlers cannot alter
what an emission dispatches. -/
theorem callFvF_dispatched (env : Env) :
    ∀ (fuel : Nat) (b : Bus) (cb : Fv) (args : List Nat),
      (callFvF env fuel b cb args).1.dispatched = b.dispatched := by
  intro fuel
  induction fuel with
  | zero => intro b cb args; rfl
  | succ fuel ih =>
    intro b cb args
    cases cb with
    | undef => rfl
    | null => rfl
    | arr i elems => rfl
    | userFn i fns fp =>
      simp only [callFvF]
      rw [script_dispatched]
    | invokerFn i fns fp =>
      have hfold : ∀ (l : List Fv) (bb : Bus),
          (l.foldl (fun bb c => (guardCall vOnInfo (callFvF env fuel bb c args)).1) bb).dispatched
            = bb.dispatched := by
        intro l
        induction l with
        | nil => intro bb; rfl
        | cons c rest ihl =>
          intro bb
          rw [List.foldl_cons, ihl, guardCall_dispatched, ih]
      match fns with
      | some (.arr j elems) =>
        simp only [callFvF]
        exact hfold elems b
      | some .undef =>
        simp only [callFvF, guardCall_dispatched, ih]
      | some .null =>
        simp only [callFvF, guardCall_dispatched, ih]
      | some (.userFn j a c) =>
        simp only [callFvF, guardCall_dispatched, ih]
      | some (.invokerFn j a c) =>
        simp only [callFvF, guardCall_dispatched, ih]
      | some (.vueOnceFn j e a c) =>
        simp only [callFvF, guardCall_dispatched, ih]
      | some (.hostOnceFn j e inn a c) =>
        simp only [callFvF, guardCall_dispatched, ih]
      | none =>
        simp only [callFvF, guardCall_dispatched, ih]
    | vueOnceFn i e fns fp =>
      match fp with
      | some orig =>
        simp only [callFvF]
        have h1 := busOffCb_dispatched b e (Fv.vueOnceFn i e fns (some orig))
        have h2 := ih (busOffCb b e (Fv.vueOnceFn i e fns (some orig))) orig args
        cases hc : callFvF env fuel (busOffCb b e (Fv.vueOnceFn i e fns (some orig))) orig args with
        | mk b2 r =>
          cases r <;> simp_all
      | none =>
        simp only [callFvF]
        exact busOffCb_dispatched b e (Fv.vueOnceFn i e fns none)
    | hostOnceFn i e inner fns fp =>
      simp only [callFvF]
      have h2 := ih b inner args
      cases hc : callFvF env fuel b inner args with
      | mk b1 r =>
        cases r with
        | error ex => simp_all
        | ok res =>
          rw [hc] at h2
          by_cases hres : res = RVal.null <;>
            simp_all [busOffCb_dispatched]

/-- The `$emit` loop appends exactly one dispatch record per snapshot entry, no
matter what the invoked callbacks do to the bus. -/
theorem emitFold_dispatched (env : Env) (fuel : Nat) (args : List Nat)
    (info : String) :
    ∀ (l : List Fv) (b : Bus),
      (l.foldl
        (fun bb c =>
          (invokeWithErrorHandling env fuel
            { bb with dispatched := bb.dispatched ++ [(c, args)] } c args info).1)
        b).dispatched
      = b.dispatched ++ l.map (fun c => (c, args)) := by
  intro l
  induction l with
  | nil => intro b; simp
  | cons c rest ih =>
    intro b
    rw [List.foldl_cons, ih]
    unfold invokeWithErrorHandling
    rw [guardCall_dispatched, callFvF_dispatched]
    simp

/-- Emitting a name with no subscribed callbacks leaves everything but the
diagnostics log unchanged. -/
theorem busEmit_empty (env : Env) (fuel : Nat) (b : Bus) (event : String)
    (args : List Nat) (h : subscribedList b event = []) :
    (busEmit env fuel b event args).fired = b.fired
    ∧ (busEmit env fuel b event args).events = b.events
    ∧ (busEmit env fuel b event args).heap = b.heap
    ∧ (busEmit env fuel b event args).dispatched = b.dispatched := by
  unfold busEmit
  simp only [devTip_events]
  unfold subscribedList at h
  cases hm : evGet b.events event with
  | none => simp [hm, devTip_fired, devTip_events, devTip_heap, devTip_dispatched]
  | some o =>
    cases o with
    | none => simp [hm, devTip_fired, devTip_events, devTip_heap, devTip_dispatched]
    | some r =>
      have h2 : b.heap r = [] := by rw [hm] at h; exact h
      simp only [hm, devTip_heap, h2, List.foldl_nil]
      simp [devTip_fired, devTip_events, devTip_heap, devTip_dispatched]

/-- Shape of `$on` when the key already holds a live array. -/
theorem busOn_shape_hit (b : Bus) (e : String) (cb : Fv) (r : Nat)
    (hm : evGet b.events e = some (some r)) :
    (busOn b e cb).events = b.events
    ∧ (busOn b e cb).heap = heapUpdate b.heap r (b.heap r ++ [cb]) := by
  unfold busOn
  simp only [hm]
  split <;> exact ⟨rfl, rfl⟩

/-- Shape of `$on` when the key is absent or holds `null`: a fresh array. -/
theorem busOn_shape_miss (b : Bus) (e : String) (cb : Fv)
    (hm : evGet b.events e = none ∨ evGet b.events e = some none) :
    (busOn b e cb).events = evSet b.events e (some b.nextRef)
    ∧ (busOn b e cb).heap = heapUpdate b.heap b.nextRef [cb] := by
  unfold busOn
  rcases hm with hm | hm <;> simp only [hm] <;> split <;> exact ⟨rfl, rfl⟩

/-- `$on` appends the callback at the end of the name's subscription sequence. -/
theorem subscribed_busOn (b : Bus) (event : String) (cb : Fv) :
    subscribedList (busOn b event cb) event = subscribedList b event ++ [cb] := by
  cases hm : evGet b.events event with
  | none =>
    have hs := busOn_shape_miss b event cb (Or.inl hm)
    unfold subscribedList
    rw [hs.1, hs.2, evGet_evSet_self, hm]
    simp [heapUpdate]
  | some o =>
    cases o with
    | none =>
      have hs := busOn_shape_miss b event cb (Or.inr hm)
      unfold subscribedList
      rw [hs.1, hs.2, evGet_evSet_self, hm]
      simp [heapUpdate]
    | some r =>
      have hs := busOn_shape_hit b event cb r hm
      unfold subscribedList
      rw [hs.1, hs.2, hm]
      simp [heapUpdate]

/-! ## C4 — exact emission of the subscribed snapshot -/

/-- C4: for every bus state — hence after every sequence of subscribe/unsubscribe
operations — and for every assignment of behaviors to the handlers, `$emit`
invokes exactly the callbacks currently subscribed for the name, in subscription
order, each exactly once, with the given arguments: the dispatch log grows by
precisely the subscribed sequence paired with the arguments, for every handler
environment, so handlers that subscribe or unsubscribe mid-emission never change
what the in-flight emission invokes (the loop iterates the snapshot taken at
emission start). `$on` appends at the end of the sequence, so the order is
subscription order; and emitting a name with no registered sequence is a no-op on
the bus (at most the dev diagnostic log changes). -/
theorem emit_exact_snapshot_invocation :
    (∀ (env : Env) (fuel : Nat) (b : Bus) (event : String) (args : List Nat),
      (busEmit env fuel b event args).dispatched
        = b.dispatched ++ (subscribedList b event).map (fun c => (c, args)))
    ∧ (∀ (b : Bus) (event : String) (cb : Fv),
      subscribedList (busOn b event cb) event = subscribedList b event ++ [cb])
    ∧ (∀ (env : Env) (fuel : Nat) (b : Bus) (event : String) (args : List Nat),
      subscribedList b event = [] →
        (busEmit env fuel b event args).fired = b.fired
        ∧ (busEmit env fuel b event args).events = b.events
        ∧ (busEmit env fuel b event args).heap = b.heap) := by
  refine ⟨?_, subscribed_busOn, ?_⟩
  · intro env fuel b event args
    unfold busEmit
    simp only [devTip_events]
    cases hm : evGet b.events event with
    | none => simp [hm, devTip_dispatched, subscribedList]
    | some o =>
      cases o with
      | none => simp [hm, devTip_dispatched, subscribedList]
      | some r =>
        simp only [hm, devTip_heap]
        rw [emitFold_dispatched]
        simp [devTip_dispatched, subscribedList, hm]
  · intro env fuel b event args h
    exact ⟨(busEmit_empty env fuel b event args h).1,
      (busEmit_empty env fuel b event args h).2.1,
      (busEmit_empty env fuel b event args h).2.2.1⟩

/-- Witness for C4: a concrete two-callback emission dispatches both entries in
order with the arguments, and emitting an unknown name is a no-op. -/
theorem emit_exact_snapshot_invocation_witness :
    (busEmit envThrow1 10 throwBus "evt" [5]).dispatched
      = [(uf 1, [5]), (uf 2, [5])]
    ∧ subscribedList (initEvents 0) "nope" = []
    ∧ (busEmit envPure 10 (initEvents 0) "nope" []).fired = (initEvents 0).fired := by
  refine ⟨?_, rfl, (emit_exact_snapshot_invocation.2.2 envPure 10 (initEvents 0) "nope" [] rfl).1⟩
  rw [emit_exact_snapshot_invocation.1 envThrow1 10 throwBus "evt" [5]]
  rfl

/-- A lookup that misses yields `undefined`. -/
theorem jsGet_of_find?_none (l : List (String × Fv)) (name : String)
    (h : l.find? (fun p => p.1 == name) = none) : jsGet l name = .undef := by
  unfold jsGet; rw [h]

/-- Two values that are `===` are either both primitives or both objects: a
defined value is never `===` to `undefined`/`null`. -/
theorem refEq_not_undef (a b : Fv) (ha : isUndefF a = false)
    (hr : refEq a b = true) : isUndefF b = false := by
  cases a <;> cases b <;> simp_all [refEq, isUndefF, idOf?]

/-- One reconciler step leaves lookups of an unprocessed key unchanged. -/
theorem ulStep1_preserves_absent (oldOn : List (String × Fv))
    (co : String → Fv → Bool → Nat → Fv × Nat) (st : ULSt)
    (entry : String × Fv) (name : String)
    (hk : (entry.1 == name) = false)
    (h : st.onMap.find? (fun p => p.1 == name) = none) :
    (ulStep1 oldOn co st entry).onMap.find? (fun p => p.1 == name) = none := by
  unfold ulStep1
  dsimp only
  split
  · exact h
  split
  · show (jsSet st.onMap entry.1 _).find? (fun p => p.1 == name) = none
    rw [find?_jsSet_ne entry.1 name _ hk]
    exact h
  split
  · exact h
  · show (jsSet st.onMap entry.1 _).find? (fun p => p.1 == name) = none
    rw [find?_jsSet_ne entry.1 name _ hk]
    exact h

/-- The removal loop only appends, so earlier calls stay in the list. -/
theorem ulStep2_mono (onAfter : List (String × Fv)) :
    ∀ (entries : List (String × Fv)) (calls : List HostCall) (c : HostCall),
      c ∈ calls → c ∈ entries.foldl (ulStep2 onAfter) calls := by
  intro entries
  induction entries with
  | nil => intro calls c hc; simpa using hc
  | cons e rest ih =>
    intro calls c hc
    rw [List.foldl_cons]
    apply ih
    unfold ulStep2
    split
    · exact List.mem_append_left _ hc
    · exact hc

/-- Every stale old-map entry contributes its remove call. -/
theorem ulStep2_emits (onAfter : List (String × Fv)) :
    ∀ (entries : List (String × Fv)) (calls : List HostCall) (name : String)
      (oldv : Fv),
      (name, oldv) ∈ entries →
      isUndefF (jsGet onAfter name) = true →
      HostCall.remove (normalizeEvent name).name oldv (normalizeEvent name).capture
        ∈ entries.foldl (ulStep2 onAfter) calls := by
  intro entries
  induction entries with
  | nil => intro _ _ _ hmem; simp at hmem
  | cons e rest ih =>
    intro calls name oldv hmem habs
    rw [List.foldl_cons]
    rcases List.mem_cons.mp hmem with he | he
    · subst he
      apply ulStep2_mono
      unfold ulStep2
      simp only [habs, if_true]
      exact List.mem_append_right _ (List.mem_singleton.mpr rfl)
    · exact ih _ name oldv he habs

/-! ## C5 — no add for unchanged entries, remove for stale names -/

/-- C5: a new-map entry whose value is reference-identical (`===`) to the old-map
value under the same name makes the first reconciliation loop a strict no-op for
that entry — no add (indeed no call and no map change at all); every name present
in the old map and absent from the new map receives a remove call carrying the
normalized name, the old registered handler and the capture flag; and on the
claim's concrete instances, reconciling identical singleton maps issues zero
calls while a rename issues exactly one add and one remove. -/
theorem reconcile_unchanged_noop_and_stale_removed :
    (∀ (oldOn : List (String × Fv)) (co : String → Fv → Bool → Nat → Fv × Nat)
        (st : ULSt) (name : String) (v : Fv),
      isUndefF v = false → refEq v (jsGet oldOn name) = true →
      ulStep1 oldOn co st (name, v) = st)
    ∧ (∀ (newOn oldOn : List (String × Fv))
        (co : String → Fv → Bool → Nat → Fv × Nat) (fresh : Nat)
        (name : String) (oldv : Fv),
      (name, oldv) ∈ oldOn →
      newOn.find? (fun p => p.1 == name) = none →
      HostCall.remove (normalizeEvent name).name oldv (normalizeEvent name).capture
        ∈ (updateListeners newOn oldOn co fresh).calls)
    ∧ (∀ (co : String → Fv → Bool → Nat → Fv × Nat) (fresh : Nat),
      (updateListeners [("a", uf 1)] [("a", uf 1)] co fresh).calls = [])
    ∧ (∀ (co : String → Fv → Bool → Nat → Fv × Nat) (fresh : Nat),
      (updateListeners [("b", uf 2)] [("a", uf 1)] co fresh).calls
        = [HostCall.add "b" (createFnInvoker fresh (uf 2)) false false none,
           HostCall.remove "a" (uf 1) false]) := by
  refine ⟨?_, ?_, fun co fresh => rfl, fun co fresh => rfl⟩
  · intro oldOn co st name v h1 h2
    have h3 := refEq_not_undef v (jsGet oldOn name) h1 h2
    unfold ulStep1
    simp only [h1, h3, h2, Bool.false_eq_true, if_false, if_true, reduceIte]
  · intro newOn oldOn co fresh name oldv hmem habs
    unfold updateListeners
    apply ulStep2_emits
    · exact hmem
    · have hkeys : ∀ p ∈ newOn, ¬((fun q => q.1 == name) p = true) :=
        List.find?_eq_none.mp habs
      have hnone : (newOn.foldl (ulStep1 oldOn co)
          ⟨newOn, [], fresh⟩).onMap.find? (fun p => p.1 == name) = none := by
        refine foldl_preserves (ulStep1 oldOn co)
          (fun st => st.onMap.find? (fun p => p.1 == name) = none) newOn
          ⟨newOn, [], fresh⟩ ?_ habs
        intro st entry hent hst
        refine ulStep1_preserves_absent oldOn co st entry name ?_ hst
        have := hkeys entry hent
        simpa using this
      rw [jsGet_of_find?_none _ _ hnone]
      rfl

/-- Witness for C5 at the claim's concrete maps. -/
theorem reconcile_unchanged_noop_and_stale_removed_witness :
    ulStep1 [("a", uf 1)] createOnceHandler ⟨[("a", uf 1)], [], 10⟩ ("a", uf 1)
      = ⟨[("a", uf 1)], [], 10⟩
    ∧ HostCall.remove "a" (uf 1) false
        ∈ (updateListeners [("b", uf 2)] [("a", uf 1)] createOnceHandler 10).calls := by
  constructor
  · exact reconcile_unchanged_noop_and_stale_removed.1 [("a", uf 1)]
      createOnceHandler ⟨[("a", uf 1)], [], 10⟩ "a" (uf 1) rfl rfl
  · exact reconcile_unchanged_noop_and_stale_removed.2.1 [("b", uf 2)]
      [("a", uf 1)] createOnceHandler 10 "a" (uf 1)
      (List.mem_singleton.mpr rfl) rfl

/-- Executing an opaque user callback appends exactly its own fired record,
whatever its script does. -/
theorem callFvF_userFn_fired (env : Env) (fuel : Nat) (b : Bus) (i : Nat)
    (fns fp : Option Fv) (args : List Nat) :
    (callFvF env (fuel + 1) b (Fv.userFn i fns fp) args).1.fired
      = b.fired ++ [(i, args)] := by
  simp only [callFvF]
  rw [script_fired]

/-! ## C2 — changed callback reference reuses the registered invoker -/

/-- C2: when a name persists across the two maps with a changed callback
reference (`cur !== old`, both defined), the reconciler issues no host call at
all for that entry: it only mutates the existing invoker's payload (`old.fns =
cur`) and stores that same object back into the new map — the registered handler
object is kept (same reference identity) — and invoking the updated registered
handler afterwards executes the new callback, not the old one. -/
theorem changed_ref_updates_invoker_in_place :
    (∀ (oldOn : List (String × Fv)) (co : String → Fv → Bool → Nat → Fv × Nat)
        (st : ULSt) (name : String) (v : Fv),
      isUndefF v = false →
      isUndefF (jsGet oldOn name) = false →
      refEq v (jsGet oldOn name) = false →
      ulStep1 oldOn co st (name, v)
        = { st with onMap := jsSet st.onMap name (setFns (jsGet oldOn name) v) })
    ∧ (∀ old cur : Fv, fvId (setFns old cur) = fvId old)
    ∧ (∀ (env : Env) (b : Bus) (args : List Nat),
      (callFvF env 10 b (setFns (createFnInvoker 5 (uf 1)) (uf 2)) args).1.fired
        = b.fired ++ [(2, args)]) := by
  refine ⟨?_, ?_, ?_⟩
  · intro oldOn co st name v h1 h2 h3
    unfold ulStep1
    simp only [h1, h2, h3, Bool.false_eq_true, if_false, reduceIte]
  · intro old cur
    cases old <;> rfl
  · intro env b args
    show (callFvF env 10 b (Fv.invokerFn 5 (some (uf 2)) none) args).1.fired
      = b.fired ++ [(2, args)]
    have h9 : (10 : Nat) = 9 + 1 := rfl
    rw [h9]
    simp only [callFvF, uf]
    rw [guardCall_fired]
    show (List.foldl applyOp
        { b with fired := b.fired ++ [(2, args)] } (env 2).script).fired
      = b.fired ++ [(2, args)]
    rw [script_fired]

/-- Witness for C2: reconciling `{a: f2}` against `{a: invoker(f1)}` rewires the
stored invoker in place with no host calls. -/
theorem changed_ref_updates_invoker_in_place_witness :
    ulStep1 [("a", createFnInvoker 5 (uf 1))] createOnceHandler
        ⟨[("a", uf 2)], [], 20⟩ ("a", uf 2)
      = ⟨[("a", Fv.invokerFn 5 (some (uf 2)) none)], [], 20⟩ := by
  have h := changed_ref_updates_invoker_in_place.1 [("a", createFnInvoker 5 (uf 1))]
    createOnceHandler ⟨[("a", uf 2)], [], 20⟩ "a" (uf 2) rfl rfl rfl
  simpa using h

/-! ## C1 — undefined/null new-map entries -/

/-- C1 counterexample: reconciling `newMap = {a: undefined}` against
`oldMap = {a: f1}` emits the diagnostic and no add, but it DOES issue a
`remove("a", f1, false)` call — the undefined entry acts as a removal trigger
because the removal loop tests `isUndef(on[name])`, which holds for a present-but-
undefined entry just as for an absent one. The claim asserts no remove call is
issued for that name. -/
theorem undef_entry_triggers_remove_cex :
    (updateListeners [("a", Fv.undef)] [("a", uf 1)] createOnceHandler 10).calls
      = [HostCall.warn "Invalid handler for event \"a\": got undefined",
         HostCall.remove "a" (uf 1) false]
    ∧ HostCall.remove "a" (uf 1) false
        ∈ (updateListeners [("a", Fv.undef)] [("a", uf 1)] createOnceHandler 10).calls := by
  refine ⟨rfl, ?_⟩
  rw [(show (updateListeners [("a", Fv.undef)] [("a", uf 1)] createOnceHandler
      10).calls
    = [HostCall.warn "Invalid handler for event \"a\": got undefined",
       HostCall.remove "a" (uf 1) false] from rfl)]
  exact List.mem_cons_of_mem _ (List.mem_singleton.mpr rfl)

/-- C1 (amended): a new-map entry whose value is undefined or null is reported as
a non-fatal diagnostic and is skipped by the add phase — that entry issues no add
call and no map change, and reconciliation continues with the remaining entries —
but it is still treated as a removal trigger: when the same name is present in
the old map, the removal phase issues a remove call for it (the removal test
looks at the new map's value, which is undefined/null). -/
theorem undef_entry_warn_skip_and_removal :
    (∀ (oldOn : List (String × Fv)) (co : String → Fv → Bool → Nat → Fv × Nat)
        (st : ULSt) (name : String) (v : Fv),
      isUndefF v = true →
      ulStep1 oldOn co st (name, v)
        = { st with
            calls := st.calls ++
              [HostCall.warn ("Invalid handler for event \""
                ++ (normalizeEvent name).name ++ "\": got " ++ fvString v)] })
    ∧ (updateListeners [("a", Fv.undef), ("b", uf 2)] [("a", uf 1)]
        createOnceHandler 10).calls
      = [HostCall.warn "Invalid handler for event \"a\": got undefined",
         HostCall.add "b" (createFnInvoker 10 (uf 2)) false false none,
         HostCall.remove "a" (uf 1) false] := by
  refine ⟨?_, rfl⟩
  intro oldOn co st name v h
  unfold ulStep1
  simp only [h, if_true, reduceIte]

/-- Witness for C1's amended statement at a concrete null entry. -/
theorem undef_entry_warn_skip_and_removal_witness :
    ulStep1 [] createOnceHandler ⟨[("x", Fv.null)], [], 0⟩ ("x", Fv.null)
      = ⟨[("x", Fv.null)],
         [HostCall.warn "Invalid handler for event \"x\": got null"], 0⟩ := by
  have h := undef_entry_warn_skip_and_removal.1 [] createOnceHandler
    ⟨[("x", Fv.null)], [], 0⟩ "x" Fv.null rfl
  simpa using h

/-- A scan over entries none of which match removes nothing. -/
theorem removeFirstMatch_of_none (fn : Fv) :
    ∀ l : List Fv, (∀ c ∈ l, matchCb c fn = false) → removeFirstMatch fn l = l := by
  intro l
  induction l with
  | nil => intro _; rfl
  | cons c rest ih =>
    intro h
    unfold removeFirstMatch
    rw [h c (List.mem_cons_self c rest)]
    simp only [Bool.false_eq_true, if_false, reduceIte]
    rw [ih (fun x hx => h x (List.mem_cons_of_mem c hx))]

/-- The scan removes exactly the first matching entry it reaches. -/
theorem removeFirstMatch_append (fn : Fv) :
    ∀ (xs : List Fv) (c : Fv) (ys : List Fv),
      (∀ x ∈ xs, matchCb x fn = false) → matchCb c fn = true →
      removeFirstMatch fn (xs ++ c :: ys) = xs ++ ys := by
  intro xs
  induction xs with
  | nil =>
    intro c ys _ hc
    unfold removeFirstMatch
    simp [hc]
  | cons x rest ih =>
    intro c ys hxs hc
    have hx : matchCb x fn = false := hxs x (List.mem_cons_self x rest)
    simp only [List.cons_append]
    unfold removeFirstMatch
    rw [hx]
    simp only [Bool.false_eq_true, if_false, reduceIte]
    rw [ih c ys (fun z hz => hxs z (List.mem_cons_of_mem x hz)) hc]

/-! ## C7 — `$off(name, fn)`: reverse scan, at most one removal -/

/-- C7: with both a name and a callback, `$off` is a no-op returning normally when
the name has no registered sequence (absent key or `null`); otherwise the live
array is scanned from the end toward the start and at most one entry is removed —
the last entry (= the first one encountered by the reverse scan) that either `===`
the callback or is a once-wrapper whose recorded original (`fn` property) `===`
the callback; entries scanned before the match (to its right) do not match, the
scan stops there, and all other entries keep their original order; when nothing
matches, the sequence is unchanged. -/
theorem off_by_cb_reverse_scan_single_removal :
    (∀ (b : Bus) (e : String) (fn : Fv),
      evGet b.events e = none → busOffCb b e fn = b)
    ∧ (∀ (b : Bus) (e : String) (fn : Fv),
      evGet b.events e = some none → busOffCb b e fn = b)
    ∧ (∀ (fn : Fv) (l : List Fv),
      (∀ c ∈ l, matchCb c fn = false) → offRemove l fn = l)
    ∧ (∀ (fn : Fv) (l1 : List Fv) (c : Fv) (l2 : List Fv),
      matchCb c fn = true → (∀ x ∈ l2, matchCb x fn = false) →
      offRemove (l1 ++ c :: l2) fn = l1 ++ l2)
    ∧ (∀ (b : Bus) (e : String) (fn : Fv) (r : Nat),
      evGet b.events e = some (some r) →
      busOffCb b e fn
        = { b with heap := heapUpdate b.heap r (offRemove (b.heap r) fn) }) := by
  refine ⟨?_, ?_, ?_, ?_, ?_⟩
  · intro b e fn hm; unfold busOffCb; rw [hm]
  · intro b e fn hm; unfold busOffCb; rw [hm]
  · intro fn l h
    unfold offRemove
    rw [removeFirstMatch_of_none fn l.reverse
      (fun c hc => h c (List.mem_reverse.mp hc))]
    exact l.reverse_reverse
  · intro fn l1 c l2 hc hl2
    unfold offRemove
    have hsplit : (l1 ++ c :: l2).reverse = l2.reverse ++ c :: l1.reverse := by
      simp
    rw [hsplit, removeFirstMatch_append fn l2.reverse c l1.reverse
      (fun x hx => hl2 x (List.mem_reverse.mp hx)) hc]
    simp
  · intro b e fn r hm; unfold busOffCb; rw [hm]

/-- Witness for C7: a miss leaves a concrete sequence unchanged; a duplicate
callback loses only its last occurrence; an unknown name is a no-op. -/
theorem off_by_cb_reverse_scan_single_removal_witness :
    offRemove [uf 1, uf 2] (uf 3) = [uf 1, uf 2]
    ∧ offRemove [uf 1, uf 2, uf 1, uf 3] (uf 1) = [uf 1, uf 2, uf 3]
    ∧ busOffCb (initEvents 0) "x" (uf 1) = initEvents 0 := by
  refine ⟨?_, ?_, ?_⟩
  · exact off_by_cb_reverse_scan_single_removal.2.2.1 (uf 3) [uf 1, uf 2]
      (by decide)
  · exact off_by_cb_reverse_scan_single_removal.2.2.2.1 (uf 1) [uf 1, uf 2]
      (uf 1) [uf 3] (by decide) (by decide)
  · exact off_by_cb_reverse_scan_single_removal.1 (initEvents 0) "x" (uf 1) rfl

/-! ## C10 — unsubscribe never clears the hook fast-path flag -/

/-- C10: `$off()` with no arguments replaces `_events` with a fresh empty mapping
but leaves `_hasHookEvent` exactly as it was; the name-level and
name-plus-callback variants also preserve the flag; `$on` only ever turns it on
(when the name matches `hook:`), so once set no unsubscribe operation resets it;
only `initEvents` yields a false flag again. -/
theorem off_preserves_hook_flag :
    (∀ b : Bus, (busOffAll b).events = []
      ∧ (busOffAll b).hasHookEvent = b.hasHookEvent)
    ∧ (∀ (b : Bus) (e : String), (busOffEvent b e).hasHookEvent = b.hasHookEvent)
    ∧ (∀ (b : Bus) (e : String) (f : Fv),
      (busOffCb b e f).hasHookEvent = b.hasHookEvent)
    ∧ (∀ v : Nat, (initEvents v).hasHookEvent = false)
    ∧ (∀ (b : Bus) (e : String) (cb : Fv),
      (busOn b e cb).hasHookEvent = (b.hasHookEvent || hookTest e))
    ∧ (∀ (b : Bus) (op : BusOp), b.hasHookEvent = true →
      (applyOp b op).hasHookEvent = true) := by
  have hOffEvent : ∀ (b : Bus) (e : String),
      (busOffEvent b e).hasHookEvent = b.hasHookEvent := by
    intro b e; unfold busOffEvent; split <;> rfl
  have hOffCb : ∀ (b : Bus) (e : String) (f : Fv),
      (busOffCb b e f).hasHookEvent = b.hasHookEvent := by
    intro b e f; unfold busOffCb; split <;> rfl
  have hOn : ∀ (b : Bus) (e : String) (cb : Fv),
      (busOn b e cb).hasHookEvent = (b.hasHookEvent || hookTest e) := by
    intro b e cb
    unfold busOn
    cases hs : hookTest e <;> split <;> simp_all
  refine ⟨fun b => ⟨rfl, rfl⟩, hOffEvent, hOffCb, fun v => rfl, hOn, ?_⟩
  intro b op h
  cases op with
  | subOp e cb => simp only [applyOp]; rw [hOn, h]; rfl
  | subOnceOp e cb => simp only [applyOp, busOnce]; rw [hOn]; simp [h]
  | offAllOp => exact h
  | offEventOp e => simp only [applyOp]; rw [hOffEvent]; exact h
  | offCbOp e cb => simp only [applyOp]; rw [hOffCb]; exact h

/-- Witness for C10: the flag set by a hook subscription survives a full clear. -/
theorem off_preserves_hook_flag_witness :
    (applyOp (busOn (initEvents 0) "hook:mounted" (uf 1))
      BusOp.offAllOp).hasHookEvent = true :=
  off_preserves_hook_flag.2.2.2.2.2
    (busOn (initEvents 0) "hook:mounted" (uf 1)) BusOp.offAllOp (by rfl)

/-! ## C9 — per-callback error isolation -/

/-- C9: a callback that throws during an emission does not prevent the later
callbacks for the same event from running and does not abort the emit call: with
callback 1 throwing fault 9, both subscribed callbacks still fire and the fault
surfaces only as a diagnostic tagged with the owning instance (7) and the string
`event handler for "evt"`; inside an invoker, a throwing element of an array
payload leaves the later elements running, tags the diagnostic `v-on handler`,
and the invoker still returns normally — the shared boundary converts any fault
into a recorded diagnostic plus an `undefined` result and never rethrows. -/
theorem error_isolation_per_callback :
    (busEmit envThrow1 10 throwBus "evt" [5]).fired = [(1, [5]), (2, [5])]
    ∧ (busEmit envThrow1 10 throwBus "evt" [5]).diags
        = [Diag.handlerError 7 (emitInfo "evt") 9]
    ∧ emitInfo "evt" = "event handler for \"evt\""
    ∧ (∀ (fuel : Nat) (b : Bus) (args : List Nat),
      (callFvF envThrow1 (fuel + 2) b
          (Fv.invokerFn 20 (some (Fv.arr 30 [uf 1, uf 2])) none) args).1.fired
        = b.fired ++ [(1, args), (2, args)]
      ∧ (callFvF envThrow1 (fuel + 2) b
          (Fv.invokerFn 20 (some (Fv.arr 30 [uf 1, uf 2])) none) args).1.diags
        = b.diags ++ [Diag.handlerError b.vmId vOnInfo 9]
      ∧ (callFvF envThrow1 (fuel + 2) b
          (Fv.invokerFn 20 (some (Fv.arr 30 [uf 1, uf 2])) none) args).2
        = Except.ok RVal.undef)
    ∧ (∀ (info : String) (bb : Bus) (v : RVal),
      guardCall info (bb, Except.ok v) = (bb, v))
    ∧ (∀ (info : String) (bb : Bus) (ex : Nat),
      guardCall info (bb, Except.error ex)
        = ({ bb with diags := bb.diags ++ [Diag.handlerError bb.vmId info ex] },
           RVal.undef)) := by
  refine ⟨by rfl, by rfl, by rfl, ?_, fun info bb v => rfl, fun info bb ex => rfl⟩
  intro fuel b args
  rw [show fuel + 2 = (fuel + 1) + 1 from rfl]
  simp only [callFvF, uf, envThrow1, guardCall, List.foldl_cons, List.foldl_nil]
  simp

/-! ## C6 — `$once` wrapper semantics -/

/-- C6 counterexample: with the `$once` interceptor and a direct subscription of
the same callback both registered (`[wrapper, f1]`), firing the wrapper removes
the WRAPPER entry — the self-removal passes the wrapper itself to `$off`, which
matches it by its own identity (`cb === fn`) — leaving `[f1]`; under the
mechanism the claim describes (matching by identity against the original callback
stored on the wrapper's `fn` property, not the wrapper itself), the reverse scan
would remove the direct `f1` entry instead, leaving `[wrapper]`. The results
differ, so the claim's description of the self-removal match is false on the
code. -/
theorem once_self_removal_matches_wrapper_cex :
    subscribedList onceBusBoth "evt" = [onceW, uf 1]
    ∧ subscribedList (callFvF envPure 10 onceBusBoth onceW []).1 "evt" = [uf 1]
    ∧ subscribedList (specVueOnceCall envPure 10 onceBusBoth onceW []) "evt"
        = [onceW]
    ∧ ([uf 1] : List Fv) ≠ [onceW] :=
  ⟨rfl, rfl, rfl, by simp [uf, onceW]⟩

/-- C6 (amended): a callback registered through `$once` fires at most once across
any number of emits of the name — after the first emission the wrapper has
removed itself (by passing ITSELF to `$off`, matched by the wrapper's own
identity) and then forwarded the arguments (and the instance context) to the
original callback, and later emits find an empty sequence; the original callback
is stored on the wrapper's `fn` property so that a user-level
`unsubscribe(name, cb)` with the original callback matches and removes the
wrapper before it fires; after the wrapper has fired, `unsubscribe(name, cb)` is
a no-op because the entry is already removed. -/
theorem once_fires_at_most_once :
    (emitIter envPure 10 "evt" [5] onceBusSolo 0).fired = []
    ∧ (∀ n : Nat, emitIter envPure 10 "evt" [5] onceBusSolo (n + 1) = onceAfter)
    ∧ onceAfter.fired = [(1, [5])]
    ∧ subscribedList onceAfter "evt" = []
    ∧ busOffCb onceAfter "evt" (uf 1) = onceAfter
    ∧ subscribedList (busOffCb onceBusSolo "evt" (uf 1)) "evt" = [] := by
  have hiter : ∀ n : Nat,
      emitIter envPure 10 "evt" [5] onceBusSolo (n + 1) = onceAfter := by
    intro n
    induction n with
    | zero => rfl
    | succ m ih =>
      show busEmit envPure 10 (emitIter envPure 10 "evt" [5] onceBusSolo (m + 1))
        "evt" [5] = onceAfter
      rw [ih]
      rfl
  have hshape : busOffCb onceAfter "evt" (uf 1)
      = { onceAfter with heap := heapUpdate onceAfter.heap 0 ([]) } := rfl
  have hheap : heapUpdate onceAfter.heap 0 ([]) = onceAfter.heap := by
    funext x
    by_cases hx : x = 0 <;> simp [heapUpdate, hx, onceAfter]
  refine ⟨rfl, hiter, rfl, rfl, ?_, rfl⟩
  rw [hshape, hheap]

/-! ## C3 — the host once-adapter -/

/-- C3 counterexample: the claim's success predicate — the wrapped handler's
return value is defined and non-null — is false at `undefined`, yet the adapter
whose wrapped handler returns `undefined` self-removes after one emission: the
source tests `res !== null`, which `undefined` passes. -/
theorem once_adapter_undef_return_removes_cex :
    specCountsAsFired RVal.undef = false
    ∧ subscribedList hostBus "click" = [hostW]
    ∧ subscribedList (busEmit envPure 10 hostBus "click" []) "click" = []
    ∧ (busEmit envPure 10 hostBus "click" []).fired = [(1, [])] :=
  ⟨by decide, rfl, rfl, rfl⟩

/-- C3 (amended): the wrapper returned by `createOnceHandler` self-removes after
its first invocation exactly when the wrapped handler's return value is NOT null
— an undefined (missing) return value also counts as fired, and only a literal
null return leaves the adapter armed, in which case later emits keep invoking it;
once it has self-removed it is not re-armed by later emits; and reconciling an
empty old map against `{~click: f1}` issues `add("click", wrapped, false, false,
undefined)` where `wrapped` is the once-adapter, which then fires at most once. -/
theorem once_adapter_removal_iff_non_null :
    (∀ (env : Env) (fuel : Nat) (b b1 : Bus) (i : Nat) (e : String) (inner : Fv)
        (fns fp : Option Fv) (args : List Nat) (res : RVal),
      callFvF env fuel b inner args = (b1, Except.ok res) →
      callFvF env (fuel + 1) b (Fv.hostOnceFn i e inner fns fp) args
        = (if res = RVal.null then b1
           else busOffCb b1 e (Fv.hostOnceFn i e inner fns fp),
           Except.ok RVal.undef))
    ∧ (updateListeners [("~click", uf 1)] [] createOnceHandler 10).calls
        = [HostCall.add "click" hostW false false none]
    ∧ (∀ n : Nat, emitIter envPure 10 "click" [5] hostBus (n + 1) = hostAfterUndef)
    ∧ hostAfterUndef.fired = [(1, [5])]
    ∧ subscribedList hostAfterUndef "click" = []
    ∧ (∀ n : Nat, emitIter envNull 10 "click" [5] hostBus n
        = { hostBus with
            fired := List.replicate n (1, [5]),
            dispatched := List.replicate n (hostW, [5]) }) := by
  have hstepNull : ∀ (F : List (Nat × List Nat)) (D : List (Fv × List Nat)),
      busEmit envNull 10 { hostBus with fired := F, dispatched := D } "click" [5]
        = { hostBus with
            fired := F ++ [(1, [5])],
            dispatched := D ++ [(hostW, [5])] } := fun F D => rfl
  refine ⟨?_, rfl, ?_, rfl, rfl, ?_⟩
  · intro env fuel b b1 i e inner fns fp args res h
    simp only [callFvF]
    rw [h]
    by_cases hres : res = RVal.null <;> simp [hres]
  · intro n
    induction n with
    | zero => rfl
    | succ m ih =>
      show busEmit envPure 10 (emitIter envPure 10 "click" [5] hostBus (m + 1))
        "click" [5] = hostAfterUndef
      rw [ih]
      rfl
  · intro n
    induction n with
    | zero => rfl
    | succ m ih =>
      show busEmit envNull 10 (emitIter envNull 10 "click" [5] hostBus m)
        "click" [5] = _
      rw [ih, hstepNull]
      rw [← List.replicate_succ', ← List.replicate_succ']

/-- Witness for C3's amended statement: a concrete adapter call whose inner
handler returns `undefined` removes the adapter. -/
theorem once_adapter_removal_iff_non_null_witness :
    callFvF envPure 10 hostBus (Fv.hostOnceFn 11 "click" (uf 1) none none) []
      = (busOffCb { hostBus with fired := [(1, [])] } "click"
          (Fv.hostOnceFn 11 "click" (uf 1) none none), Except.ok RVal.undef) := by
  have h := once_adapter_removal_iff_non_null.1 envPure 9 hostBus
    { hostBus with fired := [(1, [])] } 11 "click" (uf 1) none none [] RVal.undef
    rfl
  simpa using h

/-! ## C8 — event normalizer -/

/-- C8: `normalizeEvent` parses modifier markers in the fixed, significant order
passive, then once, then capture, each tested and stripped from the front of the
remaining string, and returns the final remainder as the canonical name with the
three flags (it agrees pointwise with the parser staged exactly as the spec words
it); it is a pure function, and a token with no leading marker is returned as
itself with all flags false; the concrete instances show the order is fixed
(a once marker hides a passive marker behind it, and stacked markers strip in
passive-once-capture order). -/
theorem normalize_fixed_order_pure :
    (∀ s, normalizeEvent s = normalizeEventSpec s)
    ∧ (∀ s, noMarker s = true → normalizeEvent s = ⟨s, false, false, false⟩)
    ∧ normalizeEvent "~&x" = ⟨"&x", true, false, false⟩
    ∧ normalizeEvent "&~!x" = ⟨"x", true, true, true⟩ := by
  refine ⟨fun s => ?_, fun s h => ?_, by decide, by decide⟩
  · unfold normalizeEvent normalizeEventSpec stripFront
    simp only [apply_ite Prod.fst, apply_ite Prod.snd]
    split_ifs <;> simp_all
  · simp only [noMarker, Bool.and_eq_true, Bool.not_eq_true'] at h
    obtain ⟨⟨h1, h2⟩, h3⟩ := h
    simp [normalizeEvent, h1, h2, h3]

/-- Witness for C8 at a concrete marker-free token. -/
theorem normalize_fixed_order_pure_witness :
    noMarker "click" = true
    ∧ normalizeEvent "click" = ⟨"click", false, false, false⟩ :=
  ⟨by decide, normalize_fixed_order_pure.2.1 "click" (by decide)⟩

end VueEvents
